import Mathlib

/-!
Verification of the lopocs itowns module (src/lopocs/itowns.py).

Shallow embedding conventions:
- Python floats on bounding boxes and point coordinates are modelled as
  exact rationals (the claims under scrutiny are algebraic identities on
  the box arithmetic, which the midpoint splits compute exactly).
- Machine integers are modelled as Int / Nat.
- Fallible code (struct packing, numpy record construction, exceptions)
  is modelled with Option / Except.
- The database Session is modelled as a pure query oracle passed in as a
  function argument; the embedding records which queries are issued.
-/

namespace Lopocs

/-- Bounding box, the namedtuple `the_bbox` of itowns.py:
six coordinates xmin, ymin, zmin, xmax, ymax, zmax. -/
structure the_bbox where
  xmin : ℚ
  ymin : ℚ
  zmin : ℚ
  xmax : ℚ
  ymax : ℚ
  zmax : ℚ
deriving DecidableEq, Repr

/-- Validity invariant of a bounding box: min ≤ max on each axis. -/
def validBox (b : the_bbox) : Prop :=
  b.xmin ≤ b.xmax ∧ b.ymin ≤ b.ymax ∧ b.zmin ≤ b.zmax

/-- X component of the `half_size` tuple of `get_child`. -/
def halfx (parent : the_bbox) : ℚ := (parent.xmax - parent.xmin) / 2

/-- Y component of the `half_size` tuple of `get_child`. -/
def halfy (parent : the_bbox) : ℚ := (parent.ymax - parent.ymin) / 2

/-- Z component of the `half_size` tuple of `get_child`. -/
def halfz (parent : the_bbox) : ℚ := (parent.zmax - parent.zmin) / 2

/-- Embedding of `get_child(parent, numchild)` (itowns.py lines 239-317).
The source computes `half_size` per axis and then selects one of 8
explicit cases on `numchild`; an index outside 0..7 leaves the result
variable unbound in Python, so the embedding takes `Fin 8`. -/
def get_child (parent : the_bbox) (numchild : Fin 8) : the_bbox :=
  match numchild with
  | 0 => ⟨parent.xmin, parent.ymin, parent.zmin,
          parent.xmin + halfx parent, parent.ymin + halfy parent,
          parent.zmin + halfz parent⟩
  | 1 => ⟨parent.xmin, parent.ymin, parent.zmin + halfz parent,
          parent.xmin + halfx parent, parent.ymin + halfy parent,
          parent.zmax⟩
  | 2 => ⟨parent.xmin, parent.ymin + halfy parent, parent.zmin,
          parent.xmin + halfx parent, parent.ymax,
          parent.zmin + halfz parent⟩
  | 3 => ⟨parent.xmin, parent.ymin + halfy parent, parent.zmin + halfz parent,
          parent.xmin + halfx parent, parent.ymax, parent.zmax⟩
  | 4 => ⟨parent.xmin + halfx parent, parent.ymin, parent.zmin,
          parent.xmax, parent.ymin + halfy parent,
          parent.zmin + halfz parent⟩
  | 5 => ⟨parent.xmin + halfx parent, parent.ymin, parent.zmin + halfz parent,
          parent.xmax, parent.ymin + halfy parent, parent.zmax⟩
  | 6 => ⟨parent.xmin + halfx parent, parent.ymin + halfy parent, parent.zmin,
          parent.xmax, parent.ymax, parent.zmin + halfz parent⟩
  | 7 => ⟨parent.xmin + halfx parent, parent.ymin + halfy parent,
          parent.zmin + halfz parent,
          parent.xmax, parent.ymax, parent.zmax⟩

/-- Spec-side definition, following the words of the claim on the child
selection: bit0 (value 1) of the index selects the X half, bit1 (value 2)
the Y half, bit2 (value 4) the Z half; a set bit selects the high half. -/
def childSpecClaim (parent : the_bbox) (numchild : Fin 8) : the_bbox :=
  ⟨(if Nat.testBit numchild.val 0 then parent.xmin + halfx parent else parent.xmin),
   (if Nat.testBit numchild.val 1 then parent.ymin + halfy parent else parent.ymin),
   (if Nat.testBit numchild.val 2 then parent.zmin + halfz parent else parent.zmin),
   (if Nat.testBit numchild.val 0 then parent.xmax else parent.xmin + halfx parent),
   (if Nat.testBit numchild.val 1 then parent.ymax else parent.ymin + halfy parent),
   (if Nat.testBit numchild.val 2 then parent.zmax else parent.zmin + halfz parent)⟩

/-- Spec-side definition with the amended bit mapping: bit0 (value 1)
selects the Z half, bit1 (value 2) the Y half, bit2 (value 4) the X half;
a set bit selects the high half of that axis. -/
def childBitsZYX (parent : the_bbox) (numchild : Fin 8) : the_bbox :=
  ⟨(if Nat.testBit numchild.val 2 then parent.xmin + halfx parent else parent.xmin),
   (if Nat.testBit numchild.val 1 then parent.ymin + halfy parent else parent.ymin),
   (if Nat.testBit numchild.val 0 then parent.zmin + halfz parent else parent.zmin),
   (if Nat.testBit numchild.val 2 then parent.xmax else parent.xmin + halfx parent),
   (if Nat.testBit numchild.val 1 then parent.ymax else parent.ymin + halfy parent),
   (if Nat.testBit numchild.val 0 then parent.zmax else parent.zmin + halfz parent)⟩

/-- Shared helper: the 8-case source function agrees with the bit-mapping
formula in which bit0 selects Z, bit1 selects Y and bit2 selects X. -/
lemma get_child_eq_childBitsZYX (parent : the_bbox) (numchild : Fin 8) :
    get_child parent numchild = childBitsZYX parent numchild := by
  fin_cases numchild <;> rfl

/-- Concrete box used for counterexamples and witnesses. -/
def demoBox : the_bbox := ⟨0, 0, 0, 2, 2, 2⟩

/-- Strict interior membership of a point in a box, per axis. -/
def strictlyInside (b : the_bbox) (x y z : ℚ) : Prop :=
  b.xmin < x ∧ x < b.xmax ∧ b.ymin < y ∧ y < b.ymax ∧ b.zmin < z ∧ z < b.zmax

/-- Volume of a bounding box. -/
def volume (b : the_bbox) : ℚ :=
  (b.xmax - b.xmin) * (b.ymax - b.ymin) * (b.zmax - b.zmin)

/-- On each axis, the two half intervals produced by a set and an unset
selection bit have disjoint strict interiors. Helper for the child
disjointness proof: if two children differ in the bit of some axis, a
point strictly inside both would be strictly below and strictly above the
midpoint of that axis at once. -/
lemma no_point_in_both_of_bit_ne (parent : the_bbox) (i j : Fin 8)
    (x y z : ℚ)
    (hij : Nat.testBit i.val 0 ≠ Nat.testBit j.val 0 ∨
           Nat.testBit i.val 1 ≠ Nat.testBit j.val 1 ∨
           Nat.testBit i.val 2 ≠ Nat.testBit j.val 2)
    (hi : strictlyInside (childBitsZYX parent i) x y z)
    (hj : strictlyInside (childBitsZYX parent j) x y z) : False := by
  obtain ⟨hi1, hi2, hi3, hi4, hi5, hi6⟩ := hi
  obtain ⟨hj1, hj2, hj3, hj4, hj5, hj6⟩ := hj
  simp only [childBitsZYX] at *
  rcases hij with h | h | h
  · rcases Bool.eq_false_or_eq_true (Nat.testBit i.val 0) with hb | hb <;>
      rcases Bool.eq_false_or_eq_true (Nat.testBit j.val 0) with hb' | hb' <;>
      simp [hb, hb'] at h hi5 hi6 hj5 hj6 <;> linarith
  · rcases Bool.eq_false_or_eq_true (Nat.testBit i.val 1) with hb | hb <;>
      rcases Bool.eq_false_or_eq_true (Nat.testBit j.val 1) with hb' | hb' <;>
      simp [hb, hb'] at h hi3 hi4 hj3 hj4 <;> linarith
  · rcases Bool.eq_false_or_eq_true (Nat.testBit i.val 2) with hb | hb <;>
      rcases Bool.eq_false_or_eq_true (Nat.testBit j.val 2) with hb' | hb' <;>
      simp [hb, hb'] at h hi1 hi2 hj1 hj2 <;> linarith

/-- Distinct indices below 8 differ in one of their three low bits. -/
lemma exists_bit_ne_of_ne (i j : Fin 8) (h : i ≠ j) :
    Nat.testBit i.val 0 ≠ Nat.testBit j.val 0 ∨
    Nat.testBit i.val 1 ≠ Nat.testBit j.val 1 ∨
    Nat.testBit i.val 2 ≠ Nat.testBit j.val 2 := by
  fin_cases i <;> fin_cases j <;> simp_all <;> decide

/-- Volume of any child of the bit formula: one eighth of the parent. -/
lemma volume_childBitsZYX (parent : the_bbox) (i : Fin 8) :
    volume (childBitsZYX parent i) = volume parent / 8 := by
  rcases Bool.eq_false_or_eq_true (Nat.testBit i.val 0) with h0 | h0 <;>
    rcases Bool.eq_false_or_eq_true (Nat.testBit i.val 1) with h1 | h1 <;>
    rcases Bool.eq_false_or_eq_true (Nat.testBit i.val 2) with h2 | h2 <;>
    simp only [childBitsZYX, volume, halfx, halfy, halfz, h0, h1, h2,
      if_true, if_false, Bool.false_eq_true] <;> ring

/-- C1 counterexample: at the parent box (0,0,0,2,2,2) and child index 1,
the source `get_child` returns the Z-high octant (zmin moves to the
midpoint 1), while the claimed bit mapping (bit0 selects the X half)
predicts the X-high octant (xmin moves to the midpoint 1). -/
theorem get_child_bit_mapping_counterexample :
    get_child demoBox 1 ≠ childSpecClaim demoBox 1 ∧
    (get_child demoBox 1).zmin = 1 ∧ (get_child demoBox 1).xmin = 0 ∧
    (childSpecClaim demoBox 1).zmin = 0 ∧ (childSpecClaim demoBox 1).xmin = 1 := by
  refine ⟨?_, ?_, ?_, ?_, ?_⟩
  · intro hEq
    have hz := congrArg the_bbox.zmin hEq
    have h1 : (get_child demoBox 1).zmin = 0 + (2 - 0) / 2 := rfl
    have h2 : (childSpecClaim demoBox 1).zmin = 0 := rfl
    rw [h1, h2] at hz
    norm_num at hz
  · show (0 : ℚ) + (2 - 0) / 2 = 1
    norm_num
  · rfl
  · rfl
  · show (0 : ℚ) + (2 - 0) / 2 = 1
    norm_num

/-- C1 (amended): for every parent bounding box with min ≤ max per axis and
every child index 0-7, `child(parent, index)` selects the low or high half
of each axis by the bits of the index under the fixed mapping bit0 (value
1) selects the Z half, bit1 (value 2) selects the Y half, bit2 (value 4)
selects the X half; octant 0 is the all-low corner and octant 7 the
all-high corner. -/
theorem get_child_bit_mapping (parent : the_bbox) (h : validBox parent)
    (numchild : Fin 8) :
    get_child parent numchild = childBitsZYX parent numchild ∧
    get_child parent 0 =
      ⟨parent.xmin, parent.ymin, parent.zmin,
       parent.xmin + halfx parent, parent.ymin + halfy parent,
       parent.zmin + halfz parent⟩ ∧
    get_child parent 7 =
      ⟨parent.xmin + halfx parent, parent.ymin + halfy parent,
       parent.zmin + halfz parent,
       parent.xmax, parent.ymax, parent.zmax⟩ :=
  ⟨get_child_eq_childBitsZYX parent numchild, rfl, rfl⟩

/-- Witness for the amended C1 theorem at the box (0,0,0,2,2,2), index 5. -/
theorem get_child_bit_mapping_witness :
    validBox demoBox ∧
    (get_child demoBox 5 = childBitsZYX demoBox 5 ∧
     get_child demoBox 0 =
       ⟨demoBox.xmin, demoBox.ymin, demoBox.zmin,
        demoBox.xmin + halfx demoBox, demoBox.ymin + halfy demoBox,
        demoBox.zmin + halfz demoBox⟩ ∧
     get_child demoBox 7 =
       ⟨demoBox.xmin + halfx demoBox, demoBox.ymin + halfy demoBox,
        demoBox.zmin + halfz demoBox,
        demoBox.xmax, demoBox.ymax, demoBox.zmax⟩) :=
  ⟨by norm_num [validBox, demoBox], get_child_bit_mapping demoBox (by norm_num [validBox, demoBox]) 5⟩

/-- C5: for every valid parent bounding box, the 8 child boxes have
pairwise disjoint interiors and their volumes sum exactly to the volume of
the parent. -/
theorem children_partition (parent : the_bbox) (h : validBox parent) :
    (∀ i j : Fin 8, i ≠ j → ∀ x y z : ℚ,
      ¬(strictlyInside (get_child parent i) x y z ∧
        strictlyInside (get_child parent j) x y z)) ∧
    (∑ i : Fin 8, volume (get_child parent i)) = volume parent := by
  constructor
  · intro i j hij x y z ⟨hi, hj⟩
    rw [get_child_eq_childBitsZYX] at hi hj
    exact no_point_in_both_of_bit_ne parent i j x y z
      (exists_bit_ne_of_ne i j hij) hi hj
  · have hv : ∀ i : Fin 8, volume (get_child parent i) = volume parent / 8 := by
      intro i
      rw [get_child_eq_childBitsZYX, volume_childBitsZYX]
    simp only [Fin.sum_univ_eight, hv]
    ring

/-- Witness for C5 at the box (0,0,0,2,2,2). -/
theorem children_partition_witness :
    validBox demoBox ∧
    ((∀ i j : Fin 8, i ≠ j → ∀ x y z : ℚ,
      ¬(strictlyInside (get_child demoBox i) x y z ∧
        strictlyInside (get_child demoBox j) x y z)) ∧
     (∑ i : Fin 8, volume (get_child demoBox i)) = volume demoBox) :=
  ⟨by norm_num [validBox, demoBox], children_partition demoBox (by norm_num [validBox, demoBox])⟩

/-! LOD budget planner (compute_psize, lines 138-151) and the session
threshold preparation (prepare_session_lod_threshold, lines 63-74). -/

/-- Limit above which a whole LOD level is skipped (itowns.py line 25). -/
def SKIP_LOD_POINT_LIMIT : ℤ := 60000

/-- Leaf point limit (itowns.py line 26). -/
def NODE_POINT_LIMIT : ℤ := 20000

/-- Embedding of `compute_psize(session, lod)` (lines 138-151). The two
session thresholds are passed explicitly. In the source the final branch
computes `int(pow(8, power))`; that branch is only reached with
`lod > threshold1` and `lod > threshold2`, where `power` is a nonnegative
integer and the float power is the exact integer `8 ^ power`, embedded
through `Int.toNat` of the exponent. -/
def compute_psize (t1 t2 : ℤ) (lod : ℕ) : ℤ :=
  if (lod : ℤ) ≤ t1 then 0
  else if (lod : ℤ) ≤ t2 then 1
  else (8 : ℤ) ^ ((lod : ℤ) - (if 0 ≤ t2 then t2 + 1 else 0)).toNat

/-- C4: for every cached threshold pair and every lod, `psize(lod)` is 0
when `lod ≤ threshold1`, 1 when `threshold1 < lod ≤ threshold2`, and
otherwise `8 ^ (lod - (threshold2 + 1 if threshold2 ≥ 0 else 0))`; with
both thresholds -1, psize gives 1, 8, 64 at lod 0, 1, 2. -/
theorem compute_psize_regimes (t1 t2 : ℤ) (lod : ℕ) :
    ((lod : ℤ) ≤ t1 → compute_psize t1 t2 lod = 0) ∧
    (t1 < (lod : ℤ) → (lod : ℤ) ≤ t2 → compute_psize t1 t2 lod = 1) ∧
    (t1 < (lod : ℤ) → t2 < (lod : ℤ) →
      compute_psize t1 t2 lod =
        (8 : ℤ) ^ ((lod : ℤ) - (if 0 ≤ t2 then t2 + 1 else 0)).toNat) ∧
    compute_psize (-1) (-1) 0 = 1 ∧
    compute_psize (-1) (-1) 1 = 8 ∧
    compute_psize (-1) (-1) 2 = 64 := by
  refine ⟨?_, ?_, ?_, ?_, ?_, ?_⟩
  · intro h
    simp [compute_psize, h]
  · intro h1 h2
    simp [compute_psize, not_le.mpr h1, h2]
  · intro h1 h2
    simp [compute_psize, not_le.mpr h1, not_le.mpr h2]
  · norm_num [compute_psize]
  · norm_num [compute_psize]
  · have h2 : ((2 : ℕ) : ℤ) - (if (0 : ℤ) ≤ -1 then (-1 : ℤ) + 1 else 0) = 2 := by norm_num
    simp only [compute_psize, h2]
    norm_num
    rfl

/-- Witness for C4 with thresholds (1, 3): at lod 2 the single-point
regime applies, and at lod 5 the exponential regime gives 8. -/
theorem compute_psize_regimes_witness :
    ((1 : ℤ) < (2 : ℕ) ∧ ((2 : ℕ) : ℤ) ≤ 3 ∧ compute_psize 1 3 2 = 1) ∧
    ((1 : ℤ) < (5 : ℕ) ∧ (3 : ℤ) < (5 : ℕ) ∧
      compute_psize 1 3 5 = (8 : ℤ) ^ (((5 : ℕ) : ℤ) - (if (0 : ℤ) ≤ 3 then 3 + 1 else 0)).toNat) :=
  ⟨⟨by norm_num, by norm_num,
      (compute_psize_regimes 1 3 2).2.1 (by norm_num) (by norm_num)⟩,
   ⟨by norm_num, by norm_num,
      (compute_psize_regimes 1 3 5).2.2.1 (by norm_num) (by norm_num)⟩⟩

/-! Number-of-points estimator (get_numpoints, lines 154-174). The
database is modelled as a pure oracle from a hierarchy count query to an
optional integer (None modelling a SQL NULL sum); the embedding returns
the result together with the list of queries issued. -/

/-- Arguments of one hierarchy count query: the node box substituted into
the three pc_filterbetween calls, and the pc_range start and count. -/
structure HQuery where
  box : the_bbox
  start : ℤ
  count : ℤ
deriving DecidableEq, Repr

/-- Start offset `1 + sum(compute_psize(session, l) for l in range(lod))`
(line 165). -/
def numpointsStart (t1 t2 : ℤ) (lod : ℕ) : ℤ :=
  1 + ((List.range lod).map (fun l => compute_psize t1 t2 l)).sum

/-- Count `min(psize, patch_size - start)` (line 166). -/
def numpointsCount (t1 t2 : ℤ) (lod : ℕ) (patch_size : ℤ) : ℤ :=
  min (compute_psize t1 t2 lod) (patch_size - numpointsStart t1 t2 lod)

/-- Embedding of `get_numpoints(session, box, lod, patch_size)` (lines
154-174). Returns the integer result and the list of store queries
issued. The Python `session.query(sql)[0][0] or 0` collapses a NULL sum
to 0, modelled by `Option.getD 0`. -/
def get_numpoints (store : HQuery → Option ℤ) (t1 t2 : ℤ) (box : the_bbox)
    (lod : ℕ) (patch_size : ℤ) : ℤ × List HQuery :=
  let psize := compute_psize t1 t2 lod
  if psize = 0 then (-1, [])
  else
    let start := numpointsStart t1 t2 lod
    let count := numpointsCount t1 t2 lod patch_size
    (((store ⟨box, start, count⟩).getD 0), [⟨box, start, count⟩])

/-- Helper: the list sum over `List.range` used by the source equals the
corresponding Finset sum. -/
lemma listSum_range_eq (f : ℕ → ℤ) (n : ℕ) :
    ((List.range n).map f).sum = ∑ l ∈ Finset.range n, f l := by
  induction n with
  | zero => simp
  | succ n ih => simp [List.range_succ, Finset.sum_range_succ, ih]

/-- C6: when `psize(lod) = 0` the estimator returns -1 and issues no
store query; otherwise it issues exactly one query with
`start = 1 + Σ_{l<lod} psize(l)` and `count = min(psize, patch_size -
start)` on the node box, and returns the summed count, 0 when the store
returns NULL. -/
theorem get_numpoints_spec (store : HQuery → Option ℤ) (t1 t2 : ℤ)
    (box : the_bbox) (lod : ℕ) (patch_size : ℤ) :
    (compute_psize t1 t2 lod = 0 →
      get_numpoints store t1 t2 box lod patch_size = (-1, [])) ∧
    (compute_psize t1 t2 lod ≠ 0 →
      numpointsStart t1 t2 lod = 1 + ∑ l ∈ Finset.range lod, compute_psize t1 t2 l ∧
      numpointsCount t1 t2 lod patch_size =
        min (compute_psize t1 t2 lod) (patch_size - numpointsStart t1 t2 lod) ∧
      (get_numpoints store t1 t2 box lod patch_size).2 =
        [⟨box, numpointsStart t1 t2 lod, numpointsCount t1 t2 lod patch_size⟩] ∧
      (get_numpoints store t1 t2 box lod patch_size).1 =
        (store ⟨box, numpointsStart t1 t2 lod, numpointsCount t1 t2 lod patch_size⟩).getD 0 ∧
      (store ⟨box, numpointsStart t1 t2 lod, numpointsCount t1 t2 lod patch_size⟩ = none →
        (get_numpoints store t1 t2 box lod patch_size).1 = 0)) := by
  constructor
  · intro h
    simp [get_numpoints, h]
  · intro h
    refine ⟨by rw [numpointsStart, listSum_range_eq], rfl, ?_, ?_, ?_⟩
    · simp [get_numpoints, h]
    · simp [get_numpoints, h]
    · intro hn
      simp [get_numpoints, h, hn]

/-- Witness for C6: thresholds (-1, -1), lod 0, patch size 100, a store
answering NULL; psize is 1, the single query has start 1 and count 1, and
the NULL sum collapses to 0. -/
theorem get_numpoints_spec_witness :
    compute_psize (-1) (-1) 0 ≠ 0 ∧
    (numpointsStart (-1) (-1) 0 = 1 + ∑ l ∈ Finset.range 0, compute_psize (-1) (-1) l ∧
     numpointsCount (-1) (-1) 0 100 =
       min (compute_psize (-1) (-1) 0) (100 - numpointsStart (-1) (-1) 0) ∧
     (get_numpoints (fun _ => none) (-1) (-1) demoBox 0 100).2 =
       [⟨demoBox, numpointsStart (-1) (-1) 0, numpointsCount (-1) (-1) 0 100⟩] ∧
     (get_numpoints (fun _ => none) (-1) (-1) demoBox 0 100).1 =
       ((fun (_ : HQuery) => (none : Option ℤ))
         ⟨demoBox, numpointsStart (-1) (-1) 0, numpointsCount (-1) (-1) 0 100⟩).getD 0 ∧
     ((fun (_ : HQuery) => (none : Option ℤ))
         ⟨demoBox, numpointsStart (-1) (-1) 0, numpointsCount (-1) (-1) 0 100⟩ = none →
       (get_numpoints (fun _ => none) (-1) (-1) demoBox 0 100).1 = 0)) :=
  ⟨by norm_num [compute_psize],
   (get_numpoints_spec (fun _ => none) (-1) (-1) demoBox 0 100).2
     (by norm_num [compute_psize])⟩

/-! Session LOD thresholds (prepare_session_lod_threshold, lines 63-74).
The patch count `nbpoints / patch_size` is a Python float; it is modelled
as a real number, `math.log(x, 8)` as `Real.log x / Real.log 8`, and the
Python `round` as the Mathlib `round` (both are monotone; they differ
only in the direction of ties, which does not affect the ordering claim
proved here). -/

/-- Embedding of the threshold1 computation (lines 66-69). -/
noncomputable def psize_threshold1 (patch_count : ℝ) : ℤ :=
  if patch_count < (SKIP_LOD_POINT_LIMIT : ℝ) then -1
  else round (Real.log (patch_count / (SKIP_LOD_POINT_LIMIT : ℝ)) / Real.log 8)

/-- Embedding of the threshold2 computation (lines 71-74). -/
noncomputable def psize_threshold2 (patch_count : ℝ) : ℤ :=
  if patch_count < (NODE_POINT_LIMIT : ℝ) then -1
  else round (Real.log (patch_count / (NODE_POINT_LIMIT : ℝ)) / Real.log 8)

/-- Monotonicity of rounding, used for the threshold ordering. -/
lemma round_mono_real {x y : ℝ} (h : x ≤ y) : round x ≤ round y := by
  rw [round_eq, round_eq]
  exact Int.floor_mono (by linarith)

/-- C10: for every positive patch count the two session thresholds are
ordered, `psize_threshold1 ≤ psize_threshold2`, because the skip limit
60000 exceeds the single-sample limit 20000 and rounding composed with
the base-8 logarithm is monotone. -/
theorem thresholds_ordered (patch_count : ℝ) (h : 0 < patch_count) :
    psize_threshold1 patch_count ≤ psize_threshold2 patch_count := by
  have hlog8 : (0 : ℝ) < Real.log 8 := Real.log_pos (by norm_num)
  by_cases h1 : patch_count < (SKIP_LOD_POINT_LIMIT : ℝ)
  · by_cases h2 : patch_count < (NODE_POINT_LIMIT : ℝ)
    · simp [psize_threshold1, psize_threshold2, h1, h2]
    · have hge : (NODE_POINT_LIMIT : ℝ) ≤ patch_count := not_lt.mp h2
      have harg : (1 : ℝ) ≤ patch_count / (NODE_POINT_LIMIT : ℝ) := by
        rw [le_div_iff (by norm_num [NODE_POINT_LIMIT])]
        simpa using hge
      have hlog : (0 : ℝ) ≤ Real.log (patch_count / (NODE_POINT_LIMIT : ℝ)) :=
        Real.log_nonneg harg
      have hq : (0 : ℝ) ≤ Real.log (patch_count / (NODE_POINT_LIMIT : ℝ)) / Real.log 8 :=
        div_nonneg hlog hlog8.le
      have hr : (0 : ℤ) ≤ round (Real.log (patch_count / (NODE_POINT_LIMIT : ℝ)) / Real.log 8) := by
        have := round_mono_real hq
        simpa using this
      simp only [psize_threshold1, psize_threshold2, if_pos h1, if_neg h2]
      omega
  · have h60 : (SKIP_LOD_POINT_LIMIT : ℝ) ≤ patch_count := not_lt.mp h1
    have h2 : ¬ patch_count < (NODE_POINT_LIMIT : ℝ) := by
      push_neg
      have : (NODE_POINT_LIMIT : ℝ) ≤ (SKIP_LOD_POINT_LIMIT : ℝ) := by
        norm_num [NODE_POINT_LIMIT, SKIP_LOD_POINT_LIMIT]
      linarith
    simp only [psize_threshold1, psize_threshold2, if_neg h1, if_neg h2]
    apply round_mono_real
    rw [div_le_div_iff_of_pos_right hlog8]
    have hpc : (0 : ℝ) < patch_count := h
    have hd1 : (0 : ℝ) < patch_count / (SKIP_LOD_POINT_LIMIT : ℝ) := by
      apply div_pos hpc
      norm_num [SKIP_LOD_POINT_LIMIT]
    apply Real.log_le_log hd1
    apply div_le_div_of_nonneg_left hpc.le
    · norm_num [NODE_POINT_LIMIT]
    · norm_num [NODE_POINT_LIMIT, SKIP_LOD_POINT_LIMIT]

/-- Witness for C10 at patch count 1 (both thresholds -1). -/
theorem thresholds_ordered_witness :
    (0 : ℝ) < 1 ∧ psize_threshold1 1 ≤ psize_threshold2 1 :=
  ⟨one_pos, thresholds_ordered 1 one_pos⟩

/-! Hierarchy builder (octree, lines 177-236). The recursion accumulates
per-node records into a buffer, modelled as an association list of
(address, child bit array, point count estimate); the Python dict keys
are the node addresses, each inserted exactly once. -/

/-- Buffer of recorded hierarchy nodes: address, left-to-right child bit
array, point count estimate. -/
abbrev Buf := List (List (Fin 8) × List Bool × ℤ)

/-- Python `int()` truncation of a float, toward zero. -/
def pyInt (q : ℚ) : ℤ := if 0 ≤ q then ⌊q⌋ else ⌈q⌉

/-- Estimate of the remaining points of a node (lines 186-197), on the
already-clamped incoming estimate `np`. The source initializes
`estimate_total = NODE_POINT_LIMIT` and overwrites it when `psize` is
truthy with `npatches * patch_size - npatches * Σ_{l<lod} psize(l)`,
where `npatches = npoints / psize` is a Python true division, modelled
exactly in ℚ. -/
def estimate_total (t1 t2 : ℤ) (lod : ℕ) (patch_size np : ℤ) : ℚ :=
  if compute_psize t1 t2 lod = 0 then (NODE_POINT_LIMIT : ℚ)
  else
    (np : ℚ) / (compute_psize t1 t2 lod : ℚ) * (patch_size : ℚ) -
      (np : ℚ) / (compute_psize t1 t2 lod : ℚ) *
        ((((List.range lod).map (fun l => compute_psize t1 t2 l)).sum : ℤ) : ℚ)

/-- Body of the per-child loop of `octree` (lines 203-211): compute the
child box, estimate its point count, mark its bit when the estimate is
nonzero, and run the continuation `rec` (the guarded recursion) on the
buffer. -/
def octreeChildStep (store : HQuery → Option ℤ) (t1 t2 : ℤ) (box : the_bbox)
    (lod : ℕ) (patch_size : ℤ) (name : List (Fin 8))
    (rec : the_bbox → ℤ → List (Fin 8) → Buf → Buf)
    (acc : List Bool × Buf) (child : Fin 8) : List Bool × Buf :=
  let cbox := get_child box child
  let cnpoints := (get_numpoints store t1 t2 cbox (lod + 1) patch_size).1
  if cnpoints ≠ 0 then
    (acc.1.set child.val true, rec cbox cnpoints (name ++ [child]) acc.2)
  else acc

/-- Embedding of the recursive part of `octree(session, depth, depth_max,
box, npoints, lod, patch_size, name, buffer)` (lines 177-213), returning
the accumulated buffer. Negative incoming estimates are clamped to 0; a
node whose remaining-point estimate is below `NODE_POINT_LIMIT` is
recorded as a leaf with a zero bit array; otherwise the 8 children are
visited, and the recursion descends only while `depth < depth_max`. -/
def octreeRec (store : HQuery → Option ℤ) (t1 t2 : ℤ) (depth depth_max : ℕ)
    (box : the_bbox) (npoints : ℤ) (lod : ℕ) (patch_size : ℤ)
    (name : List (Fin 8)) (buffer : Buf) : Buf :=
  let np : ℤ := if npoints < 0 then 0 else npoints
  let est : ℚ := estimate_total t1 t2 lod patch_size np
  if est < (NODE_POINT_LIMIT : ℚ) then
    buffer ++ [(name, List.replicate 8 false, pyInt est)]
  else
    let res := (List.finRange 8).foldl
      (octreeChildStep store t1 t2 box lod patch_size name
        (fun cbox cn nm buf =>
          if _h : depth < depth_max then
            octreeRec store t1 t2 (depth + 1) depth_max cbox cn (lod + 1)
              patch_size nm buf
          else buf))
      (List.replicate 8 false, buffer)
    res.2 ++ [(name, res.1, np)]
termination_by depth_max - depth
decreasing_by omega

/-- Bit array computed by the per-child loop: bit `i` is set exactly when
the estimated point count of child `i` is nonzero. -/
def octreeChildBits (store : HQuery → Option ℤ) (t1 t2 : ℤ) (box : the_bbox)
    (lod : ℕ) (patch_size : ℤ) : List Bool :=
  (List.finRange 8).foldl
    (fun bits child =>
      if (get_numpoints store t1 t2 (get_child box child) (lod + 1) patch_size).1 ≠ 0 then
        bits.set child.val true
      else bits)
    (List.replicate 8 false)

/-- Helper: the bit-array component of the child loop ignores the buffer
and the recursion, and equals the pure bit fold. -/
lemma octreeChildStep_fst (store : HQuery → Option ℤ) (t1 t2 : ℤ)
    (box : the_bbox) (lod : ℕ) (patch_size : ℤ) (name : List (Fin 8))
    (rec : the_bbox → ℤ → List (Fin 8) → Buf → Buf) :
    ∀ (l : List (Fin 8)) (b : List Bool) (buf : Buf),
      (l.foldl (octreeChildStep store t1 t2 box lod patch_size name rec) (b, buf)).1 =
      l.foldl
        (fun bits child =>
          if (get_numpoints store t1 t2 (get_child box child) (lod + 1) patch_size).1 ≠ 0 then
            bits.set child.val true
          else bits) b := by
  intro l
  induction l with
  | nil => intro b buf; rfl
  | cons a t ih =>
    intro b buf
    simp only [List.foldl_cons]
    by_cases hc : (get_numpoints store t1 t2 (get_child box a) (lod + 1) patch_size).1 ≠ 0
    · simp only [octreeChildStep, if_pos hc]
      exact ih _ _
    · simp only [octreeChildStep, if_neg hc]
      exact ih _ _

/-- Helper: value at position `i` after folding set-true updates driven
by a decidable predicate over a list of indices. -/
lemma bitsFold_getD (P : Fin 8 → Prop) [DecidablePred P] :
    ∀ (l : List (Fin 8)) (b : List Bool) (i : Fin 8), i.val < b.length →
      (l.foldl (fun bits child => if P child then bits.set child.val true else bits) b).getD i.val false =
      (b.getD i.val false || (decide (i ∈ l) && decide (P i))) := by
  intro l
  induction l with
  | nil => intro b i _; simp
  | cons a t ih =>
    intro b i hlen
    simp only [List.foldl_cons]
    have hlen' : i.val < (if P a then b.set a.val true else b).length := by
      by_cases hP : P a <;> simp [hP, hlen]
    rw [ih _ i hlen']
    by_cases hia : i = a
    · subst hia
      by_cases hP : P i
      · have hset : (b.set i.val true)[i.val]?.getD false = true := by
          simp [List.getElem?_set_self hlen]
        simp [hP, hset, List.mem_cons]
      · simp [hP, List.mem_cons]
    · have hvalne : a.val ≠ i.val := fun hv => hia (Fin.ext hv.symm)
      have hset : ∀ v : Bool, (b.set a.val v).getD i.val false = b.getD i.val false := by
        intro v
        simp [List.getElem?_set_ne hvalne]
      by_cases hP : P a
      · simp only [if_pos hP, hset]
        simp [List.mem_cons, hia]
      · simp only [if_neg hP]
        simp [List.mem_cons, hia]

/-- Helper: bit `i` of the child-loop bit array is set exactly when the
estimated count of child `i` is nonzero. -/
lemma octreeChildBits_getD (store : HQuery → Option ℤ) (t1 t2 : ℤ)
    (box : the_bbox) (lod : ℕ) (patch_size : ℤ) (i : Fin 8) :
    (octreeChildBits store t1 t2 box lod patch_size).getD i.val false =
      decide ((get_numpoints store t1 t2 (get_child box i) (lod + 1) patch_size).1 ≠ 0) := by
  have h := bitsFold_getD
    (fun child => (get_numpoints store t1 t2 (get_child box child) (lod + 1) patch_size).1 ≠ 0)
    (List.finRange 8) (List.replicate 8 false) i (by simp [i.isLt])
  simp only [] at h
  rw [octreeChildBits, h]
  have hrep : (List.replicate 8 false)[i.val]?.getD false = false := by
    simp only [List.getElem?_replicate]
    simp [i.isLt]
  simp only [List.getD_eq_getElem?_getD, hrep]
  simp [List.mem_finRange]

/-- C7: in the hierarchy builder, with the negative incoming estimate
clamped to 0, the node is recorded as a leaf (zero child bit array,
truncated remaining-point estimate) and the recursion stops exactly when
the estimated remaining points are below `NODE_POINT_LIMIT`; otherwise
the 8 children are visited through the child loop and the node is
recorded with the child bit array (bit `i` set exactly when child `i` has
a nonzero estimate) and the clamped incoming count. The remaining-point
estimate equals the sentinel `NODE_POINT_LIMIT` when `psize(lod) = 0`,
and `npatches * patch_size - npatches * Σ_{l<lod} psize(l)` with
`npatches = np / psize(lod)` otherwise. -/
theorem octree_node_decision (store : HQuery → Option ℤ) (t1 t2 : ℤ)
    (depth depth_max : ℕ) (box : the_bbox) (npoints : ℤ) (lod : ℕ)
    (patch_size : ℤ) (name : List (Fin 8)) (buffer : Buf) :
    (compute_psize t1 t2 lod = 0 →
      estimate_total t1 t2 lod patch_size (if npoints < 0 then 0 else npoints) =
        (NODE_POINT_LIMIT : ℚ)) ∧
    (compute_psize t1 t2 lod ≠ 0 →
      estimate_total t1 t2 lod patch_size (if npoints < 0 then 0 else npoints) =
        ((if npoints < 0 then 0 else npoints) : ℚ) / (compute_psize t1 t2 lod : ℚ) *
          (patch_size : ℚ) -
        ((if npoints < 0 then 0 else npoints) : ℚ) / (compute_psize t1 t2 lod : ℚ) *
          ((∑ l ∈ Finset.range lod, compute_psize t1 t2 l : ℤ) : ℚ)) ∧
    (estimate_total t1 t2 lod patch_size (if npoints < 0 then 0 else npoints) <
        (NODE_POINT_LIMIT : ℚ) →
      octreeRec store t1 t2 depth depth_max box npoints lod patch_size name buffer =
        buffer ++ [(name, List.replicate 8 false,
          pyInt (estimate_total t1 t2 lod patch_size (if npoints < 0 then 0 else npoints)))]) ∧
    (¬ estimate_total t1 t2 lod patch_size (if npoints < 0 then 0 else npoints) <
        (NODE_POINT_LIMIT : ℚ) →
      (∃ buf2 : Buf,
        octreeRec store t1 t2 depth depth_max box npoints lod patch_size name buffer =
          buf2 ++ [(name, octreeChildBits store t1 t2 box lod patch_size,
            (if npoints < 0 then 0 else npoints))]) ∧
      (∀ i : Fin 8,
        (octreeChildBits store t1 t2 box lod patch_size).getD i.val false = true ↔
          (get_numpoints store t1 t2 (get_child box i) (lod + 1) patch_size).1 ≠ 0)) := by
  refine ⟨?_, ?_, ?_, ?_⟩
  · intro h
    simp [estimate_total, h]
  · intro h
    simp [estimate_total, h, listSum_range_eq]
  · intro h
    rw [octreeRec]
    simp only [if_pos h]
  · intro h
    constructor
    · refine ⟨((List.finRange 8).foldl
        (octreeChildStep store t1 t2 box lod patch_size name
          (fun cbox cn nm buf =>
            if _h : depth < depth_max then
              octreeRec store t1 t2 (depth + 1) depth_max cbox cn (lod + 1)
                patch_size nm buf
            else buf))
        (List.replicate 8 false, buffer)).2, ?_⟩
      rw [octreeRec]
      simp only [if_neg h]
      rw [octreeChildStep_fst]
      rfl
    · intro i
      rw [octreeChildBits_getD]
      simp

/-- Witness for C7: thresholds (-1, -1), incoming estimate -1 (clamped to
0), lod 0, patch size 100, empty store; the remaining-point estimate is 0,
below the leaf limit, so the node is recorded as a leaf. -/
theorem octree_node_decision_witness :
    (estimate_total (-1) (-1) 0 100 (if (-1 : ℤ) < 0 then 0 else -1) < (NODE_POINT_LIMIT : ℚ)) ∧
    octreeRec (fun _ => none) (-1) (-1) 0 2 demoBox (-1) 0 100 [] [] =
      [] ++ [(([] : List (Fin 8)), List.replicate 8 false,
        pyInt (estimate_total (-1) (-1) 0 100 (if (-1 : ℤ) < 0 then 0 else -1)))] := by
  have hlt : estimate_total (-1) (-1) 0 100 (if (-1 : ℤ) < 0 then 0 else -1) <
      (NODE_POINT_LIMIT : ℚ) := by
    norm_num [estimate_total, compute_psize, NODE_POINT_LIMIT]
  exact ⟨hlt,
    (octree_node_decision (fun _ => none) (-1) (-1) 0 2 demoBox (-1) 0 100 [] []).2.2.1 hlt⟩

/-! Hierarchy serialization (octree, lines 215-236): the recorded nodes
are sorted by `(len(address), address)` and each is emitted as one
`Struct(B)` byte holding the reversed bit array parsed as binary,
followed by the 4 `Struct(I)` bytes of the count in native (little
endian) byte order. Struct packing fails outside the value range of the
format character, modelled with Option. -/

/-- Lexicographic comparison of two addresses, digit by digit; models the
Python string comparison of octal-digit strings (character order equals
digit order). -/
def digitsLexLe : List (Fin 8) → List (Fin 8) → Bool
  | [], _ => true
  | _ :: _, [] => false
  | a :: as, b :: bs =>
    if a.val < b.val then true
    else if b.val < a.val then false
    else digitsLexLe as bs

/-- Sort key of line 216: compare `(len(address), address)` tuples. -/
def keyLe (a b : List (Fin 8)) : Bool :=
  Nat.blt a.length b.length || (a.length == b.length && digitsLexLe a b)

/-- Value of `int(join(bitarray)[::-1], 2)` (line 233): the reversed bit
list parsed as a binary numeral, most significant digit first. -/
def parseBinRev (bits : List Bool) : ℕ :=
  bits.reverse.foldl (fun acc b => 2 * acc + (if b then 1 else 0)) 0

/-- Packing one unsigned byte, `binchar = Struct(B)` (line 17): valid for
0 ≤ n < 256, a struct.error otherwise. -/
def packB (n : ℕ) : Option (List ℕ) :=
  if n < 256 then some [n] else none

/-- Packing one native-order unsigned 32-bit integer, `binfloat =
Struct(I)` (line 16), on a little-endian host: valid for 0 ≤ v < 2^32, a
struct.error otherwise. -/
def packI (v : ℤ) : Option (List ℕ) :=
  if 0 ≤ v ∧ v < 4294967296 then
    some [v.toNat % 256, v.toNat / 256 % 256, v.toNat / 65536 % 256,
          v.toNat / 16777216 % 256]
  else none

/-- Serialization of one recorded node (line 233):
`binchar.pack(int(join(bits)[::-1], 2)) + binfloat.pack(count)`. -/
def serializeEntry (e : List (Fin 8) × List Bool × ℤ) : Option (List ℕ) :=
  match packB (parseBinRev e.2.1), packI e.2.2 with
  | some b, some c => some (b ++ c)
  | _, _ => none

/-- Serialization of the finished hierarchy buffer (lines 215-235): the
keys are sorted by `(len(address), address)` ascending and the per-node
packings are joined. The Python dict holds each address once, so sorting
the entries equals sorting the keys and indexing the dict. -/
def hrcSerialize (buffer : Buf) : Option (List ℕ) :=
  match (buffer.mergeSort (fun e1 e2 => keyLe e1.1 e2.1)).mapM serializeEntry with
  | some parts => some parts.flatten
  | none => none

/-- Helper: unfolding of the binary parse on a cons, low bit first. -/
lemma parseBinRev_cons (b : Bool) (t : List Bool) :
    parseBinRev (b :: t) = (if b then 1 else 0) + 2 * parseBinRev t := by
  simp only [parseBinRev, List.reverse_cons, List.foldl_append, List.foldl_cons,
    List.foldl_nil]
  omega

/-- Helper: bit `i` of the parsed byte is entry `i` of the bit list. -/
lemma testBit_parseBinRev : ∀ (bits : List Bool) (i : ℕ),
    Nat.testBit (parseBinRev bits) i = bits.getD i false := by
  intro bits
  induction bits with
  | nil => intro i; simp [parseBinRev]
  | cons b t ih =>
    intro i
    rw [parseBinRev_cons]
    cases i with
    | zero =>
      cases b <;> simp [Nat.testBit_zero] <;> omega
    | succ i =>
      rw [List.getD_cons_succ, ← ih i]
      have hdiv : ((if b then 1 else 0) + 2 * parseBinRev t) / 2 = parseBinRev t := by
        cases b <;> simp <;> omega
      rw [Nat.testBit_succ, hdiv]

/-- Helper: the parsed byte of a bit list is below 2 ^ length. -/
lemma parseBinRev_lt : ∀ (bits : List Bool), parseBinRev bits < 2 ^ bits.length := by
  intro bits
  induction bits with
  | nil => simp [parseBinRev]
  | cons b t ih =>
    rw [parseBinRev_cons]
    simp only [List.length_cons, pow_succ]
    cases b <;> simp <;> omega

/-- Helper: the digit-list comparison is total. -/
lemma digitsLexLe_total : ∀ (a b : List (Fin 8)),
    (digitsLexLe a b || digitsLexLe b a) = true := by
  intro a
  induction a with
  | nil => intro b; cases b <;> simp [digitsLexLe]
  | cons x xs ih =>
    intro b
    cases b with
    | nil => simp [digitsLexLe]
    | cons y ys =>
      simp only [digitsLexLe]
      rcases Nat.lt_trichotomy x.val y.val with h | h | h
      · simp [h]
      · simp only [h, lt_irrefl, if_false]
        exact ih ys
      · simp [h, Nat.lt_asymm h]

/-- Helper: the digit-list comparison is transitive. -/
lemma digitsLexLe_trans : ∀ (a b c : List (Fin 8)),
    digitsLexLe a b = true → digitsLexLe b c = true → digitsLexLe a c = true := by
  intro a
  induction a with
  | nil => intro b c _ _; cases c <;> simp [digitsLexLe]
  | cons x xs ih =>
    intro b c hab hbc
    cases b with
    | nil => simp [digitsLexLe] at hab
    | cons y ys =>
      cases c with
      | nil => simp [digitsLexLe] at hbc
      | cons z zs =>
        simp only [digitsLexLe] at hab hbc ⊢
        rcases Nat.lt_trichotomy x.val y.val with h1 | h1 | h1
        · rcases Nat.lt_trichotomy y.val z.val with h2 | h2 | h2
          · simp [h1.trans h2]
          · have hxz : x.val < z.val := h2 ▸ h1
            simp [hxz]
          · rw [if_neg (by omega), if_pos h2] at hbc
            exact absurd hbc (by simp)
        · rcases Nat.lt_trichotomy y.val z.val with h2 | h2 | h2
          · have hxz : x.val < z.val := h1 ▸ h2
            simp [hxz]
          · rw [if_neg (by omega), if_neg (by omega)] at hab
            rw [if_neg (by omega), if_neg (by omega)] at hbc
            rw [if_neg (by omega), if_neg (by omega)]
            exact ih ys zs hab hbc
          · rw [if_neg (by omega), if_pos h2] at hbc
            exact absurd hbc (by simp)
        · rw [if_neg (by omega), if_pos h1] at hab
          exact absurd hab (by simp)

/-- Helper: the sort key comparison is total. -/
lemma keyLe_total (a b : List (Fin 8)) : (keyLe a b || keyLe b a) = true := by
  simp only [keyLe, Nat.blt_eq, beq_iff_eq]
  rcases Nat.lt_trichotomy a.length b.length with h | h | h
  · simp [h]
  · simp only [h, lt_irrefl]
    have := digitsLexLe_total a b
    cases hd : digitsLexLe a b <;> cases hd' : digitsLexLe b a <;>
      simp_all
  · simp [h, Nat.lt_asymm h]

/-- Helper: the sort key comparison is transitive. -/
lemma keyLe_trans (a b c : List (Fin 8)) (hab : keyLe a b = true)
    (hbc : keyLe b c = true) : keyLe a c = true := by
  simp only [keyLe, Nat.blt_eq, Bool.or_eq_true, Bool.and_eq_true, decide_eq_true_eq,
    beq_iff_eq] at hab hbc ⊢
  rcases hab with hab | ⟨hab1, hab2⟩ <;> rcases hbc with hbc | ⟨hbc1, hbc2⟩
  · exact Or.inl (hab.trans hbc)
  · exact Or.inl (hbc1 ▸ hab)
  · exact Or.inl (hab1 ▸ hbc)
  · exact Or.inr ⟨hab1.trans hbc1, digitsLexLe_trans a b c hab2 hbc2⟩

/-- Helper: a `mapM` over `Option` succeeds pointwise. -/
lemma mapM_eq_some_map {α β : Type} (f : α → Option β) (g : α → β) :
    ∀ (l : List α), (∀ a ∈ l, f a = some (g a)) → l.mapM f = some (l.map g) := by
  intro l
  induction l with
  | nil => intro _; rfl
  | cons a t ih =>
    intro h
    rw [List.mapM_cons, h a (by simp), ih (fun x hx => h x (by simp [hx]))]
    rfl

/-- C3: for a hierarchy buffer whose bit arrays have 8 entries and whose
counts fit an unsigned 32-bit integer, the serialized output is the
concatenation, over the nodes sorted ascending by (address length,
address), of one bitmask byte followed by the 4 little-endian bytes of
the count; the sorted order is genuinely ascending under the key
comparison; bit `i` of the bitmask byte is set exactly when child `i` was
marked present; and reading the 8 bits back reconstructs the recorded
left-to-right child array exactly. -/
theorem hrc_serialization (buffer : Buf)
    (hbits : ∀ e ∈ buffer, e.2.1.length = 8)
    (hcnt : ∀ e ∈ buffer, 0 ≤ e.2.2 ∧ e.2.2 < 4294967296) :
    hrcSerialize buffer =
      some ((buffer.mergeSort (fun e1 e2 => keyLe e1.1 e2.1)).flatMap
        (fun e => parseBinRev e.2.1 ::
          [e.2.2.toNat % 256, e.2.2.toNat / 256 % 256,
           e.2.2.toNat / 65536 % 256, e.2.2.toNat / 16777216 % 256])) ∧
    List.Pairwise (fun e1 e2 => keyLe e1.1 e2.1 = true)
      (buffer.mergeSort (fun e1 e2 => keyLe e1.1 e2.1)) ∧
    (∀ e ∈ buffer, ∀ i : ℕ, i < 8 →
      Nat.testBit (parseBinRev e.2.1) i = e.2.1.getD i false) ∧
    (∀ e ∈ buffer,
      (List.range 8).map (fun i => Nat.testBit (parseBinRev e.2.1) i) = e.2.1) := by
  refine ⟨?_, ?_, ?_, ?_⟩
  · rw [hrcSerialize]
    have hall : ∀ e ∈ buffer.mergeSort (fun e1 e2 => keyLe e1.1 e2.1),
        serializeEntry e =
          some (parseBinRev e.2.1 ::
            [e.2.2.toNat % 256, e.2.2.toNat / 256 % 256,
             e.2.2.toNat / 65536 % 256, e.2.2.toNat / 16777216 % 256]) := by
      intro e he
      rw [List.mem_mergeSort] at he
      have hb : parseBinRev e.2.1 < 256 := by
        have := parseBinRev_lt e.2.1
        rw [hbits e he] at this
        norm_num at this
        exact this
      rw [serializeEntry, packB, if_pos hb, packI, if_pos (hcnt e he)]
      rfl
    rw [mapM_eq_some_map _ _ _ hall]
    rw [List.flatMap_def]
  · exact List.sorted_mergeSort
      (fun a b c hab hbc => keyLe_trans a.1 b.1 c.1 hab hbc)
      (fun a b => keyLe_total a.1 b.1) buffer
  · intro e _ i _
    exact testBit_parseBinRev e.2.1 i
  · intro e he
    apply List.ext_getElem
    · simp [hbits e he]
    · intro i h1 h2
      simp only [List.getElem_map, List.getElem_range]
      rw [testBit_parseBinRev]
      have hi : i < e.2.1.length := h2
      rw [List.getD_eq_getElem _ _ hi]

/-- Witness for C3 on a two-node buffer: the root with children 0 and 2
and count 1000, and child node 0 with no children and count 70000. -/
theorem hrc_serialization_witness :
    (∀ e ∈ ([(([] : List (Fin 8)),
              [true, false, true, false, false, false, false, false], (1000 : ℤ)),
             ([(0 : Fin 8)],
              [false, false, false, false, false, false, false, false], (70000 : ℤ))] : Buf),
        e.2.1.length = 8) ∧
    (∀ e ∈ ([(([] : List (Fin 8)),
              [true, false, true, false, false, false, false, false], (1000 : ℤ)),
             ([(0 : Fin 8)],
              [false, false, false, false, false, false, false, false], (70000 : ℤ))] : Buf),
        0 ≤ e.2.2 ∧ e.2.2 < 4294967296) ∧
    hrcSerialize
        [(([] : List (Fin 8)),
          [true, false, true, false, false, false, false, false], (1000 : ℤ)),
         ([(0 : Fin 8)],
          [false, false, false, false, false, false, false, false], (70000 : ℤ))] =
      some [5, 232, 3, 0, 0, 0, 112, 17, 1, 0] := by
  have h1 : ∀ e ∈ ([(([] : List (Fin 8)),
              [true, false, true, false, false, false, false, false], (1000 : ℤ)),
             ([(0 : Fin 8)],
              [false, false, false, false, false, false, false, false], (70000 : ℤ))] : Buf),
      e.2.1.length = 8 := by
    intro e he
    simp only [List.mem_cons, List.not_mem_nil, or_false] at he
    rcases he with he | he <;> subst he <;> rfl
  have h2 : ∀ e ∈ ([(([] : List (Fin 8)),
              [true, false, true, false, false, false, false, false], (1000 : ℤ)),
             ([(0 : Fin 8)],
              [false, false, false, false, false, false, false, false], (70000 : ℤ))] : Buf),
      0 ≤ e.2.2 ∧ e.2.2 < 4294967296 := by
    intro e he
    simp only [List.mem_cons, List.not_mem_nil, or_false] at he
    rcases he with he | he <;> subst he <;> norm_num
  refine ⟨h1, h2, ?_⟩
  rw [(hrc_serialization _ h1 h2).1]
  rw [List.mergeSort_of_sorted (by decide)]
  rfl

/-! Tile assembly: point filtering (filter_on_xyz, lines 393-405) on the
reduced box (box_reduced, lines 408-419). The decoded patch is a numpy
structured array; only the coordinate fields take part here, and the
numpy boolean-mask indexing is a per-point filter. The random shuffle of
line 433 only permutes the list, so the containment statement quantifies
over every decoded list. -/

/-- Coordinate fields of one decoded point, in the raw store-native
numeric domain (not yet scaled). -/
structure PointRecord where
  X : ℚ
  Y : ℚ
  Z : ℚ
deriving DecidableEq, Repr

/-- Embedding of `filter_on_xyz(points, box)` (lines 393-405): keep the
points strictly inside the box on all three axes. -/
def filter_on_xyz (points : List PointRecord) (box : the_bbox) : List PointRecord :=
  points.filter (fun p =>
    decide (box.xmin < p.X) && decide (p.X < box.xmax) &&
    decide (box.ymin < p.Y) && decide (p.Y < box.ymax) &&
    decide (box.zmin < p.Z) && decide (p.Z < box.zmax))

/-- Embedding of `box_reduced(box, scales, offsets)` (lines 408-419):
apply `(edge - offset) / scale` on each axis. -/
def box_reduced (box : the_bbox) (scales offsets : ℚ × ℚ × ℚ) : the_bbox :=
  ⟨(box.xmin - offsets.1) / scales.1,
   (box.ymin - offsets.2.1) / scales.2.1,
   (box.zmin - offsets.2.2) / scales.2.2,
   (box.xmax - offsets.1) / scales.1,
   (box.ymax - offsets.2.1) / scales.2.1,
   (box.zmax - offsets.2.2) / scales.2.2⟩

/-- C8: every point retained by the tile assembler lies strictly inside
the requested box transformed into the raw domain by `(edge - offset) /
scale` per axis: strictly above the reduced minimum and strictly below
the reduced maximum on each of the three axes. -/
theorem tile_points_strictly_inside (points : List PointRecord) (box : the_bbox)
    (scales offsets : ℚ × ℚ × ℚ) (p : PointRecord)
    (hp : p ∈ filter_on_xyz points (box_reduced box scales offsets)) :
    (box_reduced box scales offsets).xmin < p.X ∧
    p.X < (box_reduced box scales offsets).xmax ∧
    (box_reduced box scales offsets).ymin < p.Y ∧
    p.Y < (box_reduced box scales offsets).ymax ∧
    (box_reduced box scales offsets).zmin < p.Z ∧
    p.Z < (box_reduced box scales offsets).zmax := by
  rw [filter_on_xyz, List.mem_filter] at hp
  have h := hp.2
  simp only [Bool.and_eq_true, decide_eq_true_eq] at h
  tauto

/-- Witness for C8: identity scales and offsets on the box (0,0,0,2,2,2)
with the single point (1,1,1), which the filter retains. -/
theorem tile_points_strictly_inside_witness :
    (⟨1, 1, 1⟩ : PointRecord) ∈
      filter_on_xyz [⟨1, 1, 1⟩] (box_reduced demoBox (1, 1, 1) (0, 0, 0)) ∧
    ((box_reduced demoBox (1, 1, 1) (0, 0, 0)).xmin < (⟨1, 1, 1⟩ : PointRecord).X ∧
     (⟨1, 1, 1⟩ : PointRecord).X < (box_reduced demoBox (1, 1, 1) (0, 0, 0)).xmax ∧
     (box_reduced demoBox (1, 1, 1) (0, 0, 0)).ymin < (⟨1, 1, 1⟩ : PointRecord).Y ∧
     (⟨1, 1, 1⟩ : PointRecord).Y < (box_reduced demoBox (1, 1, 1) (0, 0, 0)).ymax ∧
     (box_reduced demoBox (1, 1, 1) (0, 0, 0)).zmin < (⟨1, 1, 1⟩ : PointRecord).Z ∧
     (⟨1, 1, 1⟩ : PointRecord).Z < (box_reduced demoBox (1, 1, 1) (0, 0, 0)).zmax) := by
  have hmem : (⟨1, 1, 1⟩ : PointRecord) ∈
      filter_on_xyz [⟨1, 1, 1⟩] (box_reduced demoBox (1, 1, 1) (0, 0, 0)) := by
    rw [filter_on_xyz, List.mem_filter]
    refine ⟨by simp, ?_⟩
    simp only [Bool.and_eq_true, decide_eq_true_eq, box_reduced, demoBox]
    norm_num
  exact ⟨hmem, tile_points_strictly_inside [⟨1, 1, 1⟩] demoBox (1, 1, 1) (0, 0, 0) ⟨1, 1, 1⟩ hmem⟩

/-! Color assembly of get_points (lines 439-457). The structured color
dtype `cdt` (line 20) has the four uint8 fields Red, Green, Blue, Alpha;
`np.core.records.fromarrays` demands exactly one input column per dtype
field and raises a ValueError on a mismatch, modelled with Option. -/

/-- Record of the structured color dtype `cdt` (line 20): four uint8
fields. -/
structure RGBA where
  Red : ℕ
  Green : ℕ
  Blue : ℕ
  Alpha : ℕ
deriving DecidableEq, Repr

/-- Model of `np.core.records.fromarrays(columns, dtype=cdt)`: requires
exactly 4 equal-length columns, one per field of cdt, and casts each
value to uint8. A column-count or length mismatch raises a ValueError,
modelled as none. -/
def fromarraysRGBA (cols : List (List ℤ)) : Option (List RGBA) :=
  match cols with
  | [r, g, b, a] =>
    if r.length = g.length ∧ g.length = b.length ∧ b.length = a.length then
      some ((((r.zip g).zip b).zip a).map
        (fun x => ⟨(x.1.1.1 % 256).toNat, (x.1.1.2 % 256).toNat,
                   (x.1.2 % 256).toNat, (x.2 % 256).toNat⟩))
    else none
  | _ => none

/-- Column-wise content of `np.zeros((npoints, 3), dtype=int).T` (line
456) of the no-color / no-classification branch: 3 columns of `npoints`
zeros, as handed to the RGBA record constructor. -/
def zeroColorColumns (npoints : ℕ) : List (List ℤ) :=
  List.replicate 3 (List.replicate npoints 0)

/-- Result of the no-color / no-classification branch (lines 453-457):
`np.core.records.fromarrays(np.zeros((npoints, 3), dtype=int).T,
dtype=cdt)`. -/
def noFieldColorArray (npoints : ℕ) : Option (List RGBA) :=
  fromarraysRGBA (zeroColorColumns npoints)

/-- C2 counterexample: with one decoded point carrying neither color nor
classification fields, the branch hands a 3-column zero buffer to the
4-field RGBA record constructor, which fails: no 4-channel zero color
array is emitted. -/
theorem placeholder_color_counterexample :
    (zeroColorColumns 1).length = 3 ∧ noFieldColorArray 1 = none :=
  ⟨rfl, rfl⟩

/-- C2 (amended): for every point count, the no-color /
no-classification branch builds a 3-column all-zero color buffer, one
zero per returned point and channel, and this 3-channel buffer does not
match the 4-channel RGBA record type of the wire format: the record
conversion fails instead of emitting a 4-channel placeholder. -/
theorem placeholder_color_mismatch (npoints : ℕ) (col : List ℤ)
    (hcol : col ∈ zeroColorColumns npoints) :
    (zeroColorColumns npoints).length = 3 ∧
    col.length = npoints ∧ (∀ v ∈ col, v = 0) ∧
    noFieldColorArray npoints = none := by
  rw [zeroColorColumns, List.mem_replicate] at hcol
  refine ⟨rfl, ?_, ?_, rfl⟩
  · rw [hcol.2]
    exact List.length_replicate npoints 0
  · intro v hv
    rw [hcol.2] at hv
    exact List.eq_of_mem_replicate hv

/-- Witness for the amended C2 theorem at one point and the first zero
column. -/
theorem placeholder_color_mismatch_witness :
    (List.replicate 1 (0 : ℤ)) ∈ zeroColorColumns 1 ∧
    ((zeroColorColumns 1).length = 3 ∧
     (List.replicate 1 (0 : ℤ)).length = 1 ∧
     (∀ v ∈ List.replicate 1 (0 : ℤ), v = 0) ∧
     noFieldColorArray 1 = none) :=
  ⟨by simp [zeroColorColumns],
   placeholder_color_mismatch 1 (List.replicate 1 0) (by simp [zeroColorColumns])⟩

/-! Error handling of ItownsRead (lines 92-105): `get_points` runs under
`try/except TypeError`; a TypeError becomes `abort(404)` (a NotFound
boundary response) and every other exception propagates out of the
handler as a fatal server error. The store union query returning an
empty/null patch makes `read_uncompressed_patch` fail on the None blob
with a TypeError. -/

/-- Python exception classes relevant to the handler. -/
inductive PyExc where
  | typeError : PyExc
  | valueError : PyExc
  | structError : PyExc
  | other : String → PyExc
deriving DecidableEq, Repr

/-- Outcome of a tile request at the HTTP boundary. -/
inductive ReadOutcome (α : Type) where
  | ok : α → ReadOutcome α
  | notFound : ReadOutcome α
  | fatal : PyExc → ReadOutcome α
deriving DecidableEq, Repr

/-- Modelled from the spec: `read_uncompressed_patch` (lopocs/utils.py,
not under src/) decodes a patch blob; handed the None blob of an
empty/null union query result it raises a TypeError ("if the store
returns no points for the query (empty/null union), decoding fails"). -/
def read_uncompressed_patch_model {γ δ : Type} (pcpatch_wkb : Option γ)
    (decode : γ → Except PyExc δ) : Except PyExc δ :=
  match pcpatch_wkb with
  | none => Except.error PyExc.typeError
  | some blob => decode blob

/-- Head of `get_points` (lines 425-426): run the union query, decode the
patch, then assemble the tile; any exception escapes to the caller. -/
def get_points_result {γ δ α : Type} (pcpatch_wkb : Option γ)
    (decode : γ → Except PyExc δ) (assemble : δ → Except PyExc α) :
    Except PyExc α :=
  match read_uncompressed_patch_model pcpatch_wkb decode with
  | Except.error e => Except.error e
  | Except.ok pts => assemble pts

/-- The `try/except TypeError` of ItownsRead (lines 92-105): a TypeError
becomes abort(404); a successful tile is returned; any other exception
propagates as fatal. -/
def itownsReadHandle {α : Type} : Except PyExc α → ReadOutcome α
  | Except.ok t => ReadOutcome.ok t
  | Except.error PyExc.typeError => ReadOutcome.notFound
  | Except.error e => ReadOutcome.fatal e

/-- C9: an empty/null union patch yields the NotFound outcome; the
TypeError raised by decoding an absent patch is the only failure the
handler converts to the benign NotFound response, and every other
exception propagates as fatal, with no partial result. -/
theorem notfound_policy {γ δ α : Type} (decode : γ → Except PyExc δ)
    (assemble : δ → Except PyExc α) :
    itownsReadHandle (get_points_result none decode assemble) = ReadOutcome.notFound ∧
    (∀ r : Except PyExc α, itownsReadHandle r = ReadOutcome.notFound ↔
      r = Except.error PyExc.typeError) ∧
    (∀ e : PyExc, e ≠ PyExc.typeError →
      itownsReadHandle (α := α) (Except.error e) = ReadOutcome.fatal e) ∧
    (∀ a : α, itownsReadHandle (Except.ok a) = ReadOutcome.ok a) := by
  refine ⟨rfl, ?_, ?_, fun a => rfl⟩
  · intro r
    constructor
    · intro h
      match r with
      | Except.ok t => exact absurd h (by simp [itownsReadHandle])
      | Except.error PyExc.typeError => rfl
      | Except.error PyExc.valueError => exact absurd h (by simp [itownsReadHandle])
      | Except.error PyExc.structError => exact absurd h (by simp [itownsReadHandle])
      | Except.error (PyExc.other s) => exact absurd h (by simp [itownsReadHandle])
    · intro h
      rw [h]
      rfl
  · intro e he
    match e with
    | PyExc.typeError => exact absurd rfl he
    | PyExc.valueError => rfl
    | PyExc.structError => rfl
    | PyExc.other s => rfl

/-- Witness for C9 with unit payloads: the ValueError of the color-branch
mismatch is not converted to NotFound but propagates as fatal. -/
theorem notfound_policy_witness :
    PyExc.valueError ≠ PyExc.typeError ∧
    itownsReadHandle (α := Unit) (Except.error PyExc.valueError) =
      ReadOutcome.fatal PyExc.valueError :=
  ⟨by simp,
   (notfound_policy (γ := Unit) (δ := Unit) (fun _ => Except.ok ())
      (fun _ => Except.ok ())).2.2.1 PyExc.valueError (by simp)⟩

end Lopocs
